import Mathlib

/-!
Verification of the student record manager in `src/main.py`.

The model layer (`Person`/`Student`) and the manager (`StudentManager`) are
embedded shallowly:

* Python strings are `List Char`; `str.strip` / `str.lower` / the substring
  test `a in b` are `pyStrip` / `pyLower` / `containsSub` (ASCII lowering and
  the four ASCII whitespace characters, which is what all concrete inputs
  here use).
* The mutable object state of a `Student` is the structure `Student` below;
  in-place setter mutation becomes functional update, and a raised
  `ValidationError` becomes the `Except` error branch.
* `StudentManager` state is its in-memory list plus the parsed contents of
  the backing JSON file; `save_to_file` rewrites the file component from the
  in-memory list, `load_from_file` (on an existing, well-formed file) maps
  `Student.from_dict` over the parsed array.
* Python's `list.sort(key=…, reverse=…)` is a stable sort; it is embedded as
  an insertion sort `insortBy`, which is stable and agrees with any stable
  sort for the total preorders used here.
-/

namespace StudentMgmt

/-- Python `str.isspace` characters used by `str.strip` (ASCII fragment). -/
def pyWS (c : Char) : Bool := c.isWhitespace

/-- Python `str.strip()`: drop whitespace from both ends. -/
def pyStrip (l : List Char) : List Char :=
  ((l.dropWhile pyWS).reverse.dropWhile pyWS).reverse

/-- Python `str.lower()` (ASCII fragment, matching `Char.toLower`). -/
def pyLower (l : List Char) : List Char := l.map Char.toLower

/-- Boolean prefix test on character lists. -/
def isPrefixB : List Char → List Char → Bool
  | [], _ => true
  | _ :: _, [] => false
  | a :: as, b :: bs => a == b && isPrefixB as bs

/-- Python's substring test `needle in hay` on character lists. -/
def containsSub (needle : List Char) : List Char → Bool
  | [] => isPrefixB needle []
  | c :: t => isPrefixB needle (c :: t) || containsSub needle t

/-- Python string comparison: lexicographic by code point (`Char` order). -/
def lexLeB : List Char → List Char → Bool
  | [], _ => true
  | _ :: _, [] => false
  | a :: as, b :: bs => if a = b then lexLeB as bs else decide (a < b)

/-- The typed validation error raised by the model-layer setters
(`main.py` class `ValidationError`). -/
structure ValidationError where
  msg : String
deriving DecidableEq

/-- Object state of a `Student` (fields of `Person.__init__` plus
`Student.__init__`): the two `Person` fields `name`/`id` and `major`.
`Student.__init__` performs plain assignment — no trimming, no checks. -/
structure Student where
  name : List Char
  id : List Char
  major : List Char
deriving DecidableEq

/-- `Student.__init__` / `Person.__init__` (`main.py` lines 47-56, 120-130):
bare field assignment, so construction always succeeds; viewed as a fallible
operation it always returns `ok` with the fields exactly as given. -/
def studentInit (name student_id major : List Char) :
    Except ValidationError Student :=
  .ok ⟨name, student_id, major⟩

/-- `Person.set_name` (`main.py` lines 72-81): raise on trimmed-empty,
otherwise store the trimmed value. -/
def Student.set_name (s : Student) (v : List Char) :
    Except ValidationError Student :=
  if pyStrip v = [] then .error ⟨"Name cannot be empty."⟩
  else .ok { s with name := pyStrip v }

/-- `Person.set_id` (`main.py` lines 83-92). -/
def Student.set_id (s : Student) (v : List Char) :
    Except ValidationError Student :=
  if pyStrip v = [] then .error ⟨"ID cannot be empty."⟩
  else .ok { s with id := pyStrip v }

/-- `Student.set_major` (`main.py` lines 153-165). -/
def Student.set_major (s : Student) (v : List Char) :
    Except ValidationError Student :=
  if pyStrip v = [] then .error ⟨"Major cannot be empty."⟩
  else .ok { s with major := pyStrip v }

/-- The serialized shape `{name, student_id, major}` of `Student.to_dict`. -/
structure StudentDict where
  name : List Char
  student_id : List Char
  major : List Char
deriving DecidableEq

/-- `Student.to_dict` (`main.py` lines 185-196). -/
def Student.to_dict (s : Student) : StudentDict :=
  ⟨s.name, s.id, s.major⟩

/-- `Student.from_dict` (`main.py` lines 198-213): calls the constructor on
the three mapping entries (pass-through, no validation). -/
def Student.from_dict (d : StudentDict) : Student :=
  ⟨d.name, d.student_id, d.major⟩

/-- Manager state: the in-memory list `self.__students` together with the
parsed contents of the backing JSON file at `self.__data_file`. -/
structure StudentManager where
  students : List Student
  file : List StudentDict
deriving DecidableEq

/-- `StudentManager.save_to_file` (`main.py` lines 418-427): rewrite the
whole file from `[s.to_dict() for s in self.__students]`. -/
def saveToFile (st : StudentManager) : StudentManager :=
  { st with file := st.students.map Student.to_dict }

/-- `StudentManager.__init__` + `load_from_file` (`main.py` lines 237-248,
429-440) for an existing well-formed file: the in-memory list becomes
`[Student.from_dict(item) for item in data]`, with no uniqueness check. -/
def managerInit (fileData : List StudentDict) : StudentManager :=
  ⟨fileData.map Student.from_dict, fileData⟩

/-- `StudentManager._find_student_by_id` (`main.py` lines 400-413): first
student whose stored id equals `student_id` exactly (no trimming here). -/
def find_student_by_id (l : List Student) (student_id : List Char) :
    Option Student :=
  match l with
  | [] => none
  | s :: rest =>
    if s.id = student_id then some s else find_student_by_id rest student_id

/-- Index form of `_find_student_by_id`: position of the first match.  The
Python helper returns the object itself; the index lets the embedding express
the in-place mutation `update_student` performs on that object. -/
def findIdxFrom (p : Student → Bool) : List Student → Option Nat
  | [] => none
  | s :: rest => if p s then some 0 else (findIdxFrom p rest).map (· + 1)

/-- `StudentManager.get_all_students` (`main.py` lines 342-349): a shallow
copy of the list; as a value it is the same sequence of records. -/
def get_all_students (st : StudentManager) : List Student :=
  st.students

/-- `StudentManager.add_student` (`main.py` lines 253-283).  The `try` block
is modelled without a failure branch: the `Student` constructor performs no
validation and cannot raise. -/
def add_student (st : StudentManager) (name student_id major : List Char) :
    Bool × StudentManager :=
  if pyStrip name = [] ∨ pyStrip student_id = [] ∨ pyStrip major = [] then
    (false, st)
  else if (find_student_by_id st.students (pyStrip student_id)).isSome then
    (false, st)
  else
    (true, saveToFile { st with
      students := st.students ++
        [⟨pyStrip name, pyStrip student_id, pyStrip major⟩] })

/-- `StudentManager.update_student` (`main.py` lines 285-323).  The setters
run in source order (name, id, major) on the record found by `original_id`;
a `ValidationError` from a later setter leaves the effects of the earlier
setters in place (the Python code mutates the shared object), and the file is
rewritten only when all three setters succeed. -/
def update_student (st : StudentManager)
    (original_student_id new_name new_student_id new_major : List Char) :
    Bool × StudentManager :=
  match findIdxFrom (fun s => s.id == original_student_id) st.students with
  | none => (false, st)
  | some j =>
    if pyStrip new_student_id ≠ original_student_id ∧
        (find_student_by_id st.students (pyStrip new_student_id)).isSome then
      (false, st)
    else
      match (st.students.getD j ⟨[], [], []⟩).set_name new_name with
      | .error _ => (false, st)
      | .ok s1 =>
        match s1.set_id (pyStrip new_student_id) with
        | .error _ => (false, { st with students := st.students.set j s1 })
        | .ok s2 =>
          match s2.set_major new_major with
          | .error _ => (false, { st with students := st.students.set j s2 })
          | .ok s3 =>
            (true, saveToFile { st with students := st.students.set j s3 })

/-- `StudentManager.delete_student` (`main.py` lines 325-340): remove the
first student whose id matches exactly, then save. -/
def delete_student (st : StudentManager) (student_id : List Char) :
    Bool × StudentManager :=
  match findIdxFrom (fun s => s.id == student_id) st.students with
  | none => (false, st)
  | some j =>
    (true, saveToFile { st with students := st.students.eraseIdx j })

/-- `StudentManager.search_students` (`main.py` lines 351-374): strip and
lower the query; empty result of that means return everything; otherwise keep
the students whose lowered name or lowered id contains it. -/
def search_students (st : StudentManager) (query : List Char) :
    List Student :=
  if pyLower (pyStrip query) = [] then get_all_students st
  else st.students.filter (fun s =>
    containsSub (pyLower (pyStrip query)) (pyLower s.name) ||
      containsSub (pyLower (pyStrip query)) (pyLower s.id))

/-- Sort key selected by `sort_students`: the lowered id when `field = "id"`,
otherwise the lowered name (any other key falls into the `else` branch). -/
def keyOf (field : String) (s : Student) : List Char :=
  if field = "id" then pyLower s.id else pyLower s.name

/-- Insert `x` into `l` before the first element `y` with `r x y`. -/
def insertLe (r : Student → Student → Bool) (x : Student) :
    List Student → List Student
  | [] => [x]
  | y :: ys => if r x y then x :: y :: ys else y :: insertLe r x ys

/-- Stable insertion sort; for the total preorders used by `sort_students`
its output coincides with Python's stable `list.sort`. -/
def insortBy (r : Student → Student → Bool) : List Student → List Student
  | [] => []
  | x :: xs => insertLe r x (insortBy r xs)

/-- The key comparison used by `sort_students`: lexicographic `≤` on the
lowered chosen field. -/
def sortLe (field : String) (a b : Student) : Bool :=
  lexLeB (keyOf field a) (keyOf field b)

/-- `StudentManager.sort_students` (`main.py` lines 376-395): stable sort of
the in-memory list by the lowered chosen field, descending when
`ascending = false`, followed by a save. -/
def sort_students (st : StudentManager) (field : String) (ascending : Bool) :
    StudentManager :=
  if ascending then
    saveToFile { st with students := insortBy (sortLe field) st.students }
  else
    saveToFile
      { st with students := insortBy (fun a b => sortLe field b a) st.students }

/-- The store-level uniqueness predicate of the spec: pairwise-distinct ids. -/
def UniqueIds (l : List Student) : Prop :=
  l.Pairwise (fun a b => a.id ≠ b.id)

instance : DecidablePred UniqueIds := fun l =>
  List.instDecidablePairwise l

/-- One observable mutation step of the manager: any call to `add_student`,
`update_student`, `delete_student` or `sort_students`, with any arguments. -/
inductive Step : StudentManager → StudentManager → Prop
  | add (st : StudentManager) (n i m : List Char) :
      Step st (add_student st n i m).2
  | update (st : StudentManager) (o n i m : List Char) :
      Step st (update_student st o n i m).2
  | delete (st : StudentManager) (sid : List Char) :
      Step st (delete_student st sid).2
  | sort (st : StudentManager) (field : String) (ascending : Bool) :
      Step st (sort_students st field ascending)

/-- States reachable from `st` through manager operations. -/
def Reachable : StudentManager → StudentManager → Prop :=
  Relation.ReflTransGen Step

/-- The search result described by the spec's words for a non-blank query:
keep the students whose name or id contains the query itself (untrimmed) as a
case-insensitive substring; a blank query returns everything.  Stated for
comparison with `search_students`, which trims the query first. -/
def searchClaimed (st : StudentManager) (query : List Char) : List Student :=
  if pyStrip query = [] then get_all_students st
  else st.students.filter (fun s =>
    containsSub (pyLower query) (pyLower s.name) ||
      containsSub (pyLower query) (pyLower s.id))

/-- The amended search description: as `searchClaimed` but matching against
the trimmed query. -/
def searchTrimmedSpec (st : StudentManager) (query : List Char) :
    List Student :=
  if pyStrip query = [] then get_all_students st
  else st.students.filter (fun s =>
    containsSub (pyLower (pyStrip query)) (pyLower s.name) ||
      containsSub (pyLower (pyStrip query)) (pyLower s.id))

/-- Heap model for the aliasing behaviour of `get_all_students`: `Student`
objects live in a heap and are named by indices; the manager's list holds
references.  `list.copy()` copies the list of references, not the objects. -/
structure HeapState where
  heap : List Student
  refs : List Nat
deriving DecidableEq

/-- `get_all_students` in the heap model: a shallow copy — a fresh list value
holding the same references as the store's list. -/
def hs_get_all (st : HeapState) : List Nat :=
  st.refs

/-- The sequence of records the store holds, resolved through its refs. -/
def hs_records (st : HeapState) : List Student :=
  st.refs.map (fun r => st.heap.getD r ⟨[], [], []⟩)

/-- A caller invoking `set_name` (success path, trimmed-non-empty value) on
the object behind reference `r`, e.g. an element of a list returned by
`get_all_students`: the shared heap cell is updated in place. -/
def hs_set_name (st : HeapState) (r : Nat) (v : List Char) : HeapState :=
  { st with heap :=
      st.heap.set r { st.heap.getD r ⟨[], [], []⟩ with name := pyStrip v } }

/-! ### Helper lemmas about the string model -/

theorem dropWhile_dropWhile (p : Char → Bool) (l : List Char) :
    (l.dropWhile p).dropWhile p = l.dropWhile p := by
  induction l with
  | nil => rfl
  | cons x xs ih =>
    by_cases h : p x
    · simp [List.dropWhile_cons, h, ih]
    · simp [List.dropWhile_cons, h]

theorem dropWhile_head_false (p : Char → Bool) :
    ∀ (l : List Char) (a : Char) (t : List Char),
      l.dropWhile p = a :: t → p a = false := by
  intro l
  induction l with
  | nil => intro a t h; simp at h
  | cons x xs ih =>
    intro a t h
    by_cases hx : p x
    · rw [List.dropWhile_cons, if_pos hx] at h
      exact ih a t h
    · rw [List.dropWhile_cons, if_neg hx] at h
      injection h with h1 _
      subst h1
      simpa using hx

theorem pyStrip_idem (l : List Char) : pyStrip (pyStrip l) = pyStrip l := by
  have key : ∀ m : List Char,
      ((m.dropWhile pyWS).reverse.dropWhile pyWS).reverse.dropWhile pyWS =
        ((m.dropWhile pyWS).reverse.dropWhile pyWS).reverse := by
    intro m
    set u := m.dropWhile pyWS with hu
    set v := u.reverse.dropWhile pyWS with hv
    cases hvr : v.reverse with
    | nil => simp [hvr]
    | cons b t' =>
      have hsuff : v <:+ u.reverse := hv ▸ List.dropWhile_suffix pyWS
      have hpref : v.reverse <+: u := by
        have := List.reverse_prefix.mpr hsuff
        rwa [List.reverse_reverse] at this
      obtain ⟨t2, ht2⟩ := hpref
      rw [hvr] at ht2
      have hb : pyWS b = false := by
        apply dropWhile_head_false pyWS m b (t' ++ t2)
        rw [← hu, ← ht2]
        simp
      rw [List.dropWhile_cons, if_neg (by simp [hb])]
  unfold pyStrip
  rw [key l, List.reverse_reverse, dropWhile_dropWhile]

theorem pyLower_eq_nil (l : List Char) : pyLower l = [] ↔ l = [] := by
  simp [pyLower]

/-! ### Helper lemmas about lookup -/

theorem find_student_by_id_none (l : List Student) (sid : List Char) :
    find_student_by_id l sid = none ↔ ∀ s ∈ l, s.id ≠ sid := by
  induction l with
  | nil => simp [find_student_by_id]
  | cons a t ih =>
    by_cases h : a.id = sid
    · simp [find_student_by_id, h]
    · simp [find_student_by_id, h, ih]

theorem find_student_by_id_isSome (l : List Student) (sid : List Char) :
    (find_student_by_id l sid).isSome = true ↔ ∃ s ∈ l, s.id = sid := by
  induction l with
  | nil => simp [find_student_by_id]
  | cons a t ih =>
    by_cases h : a.id = sid
    · simp [find_student_by_id, h]
    · simp [find_student_by_id, h, ih]

theorem findIdxFrom_some (p : Student → Bool) :
    ∀ (l : List Student) (j : Nat), findIdxFrom p l = some j →
      j < l.length ∧ p (l.getD j ⟨[], [], []⟩) = true := by
  intro l
  induction l with
  | nil => intro j h; simp [findIdxFrom] at h
  | cons a t ih =>
    intro j h
    by_cases hp : p a
    · rw [findIdxFrom, if_pos hp] at h
      injection h with h
      subst h
      simpa using hp
    · rw [findIdxFrom, if_neg hp] at h
      cases hj : findIdxFrom p t with
      | none => rw [hj] at h; simp at h
      | some k =>
        rw [hj] at h
        simp only [Option.map_some'] at h
        injection h with h
        subst h
        obtain ⟨hk1, hk2⟩ := ih k hj
        refine ⟨by simpa using Nat.succ_lt_succ hk1, ?_⟩
        simpa [List.getD_cons_succ] using hk2

/-! ### Helper lemmas about uniqueness -/

theorem uniqueIds_append_fresh (l : List Student) (s : Student)
    (hu : UniqueIds l) (hf : ∀ a ∈ l, a.id ≠ s.id) : UniqueIds (l ++ [s]) := by
  rw [UniqueIds, List.pairwise_append]
  refine ⟨hu, List.pairwise_singleton _ _, ?_⟩
  intro a ha b hb
  simp only [List.mem_singleton] at hb
  subst hb
  exact hf a ha

theorem uniqueIds_set_same_id :
    ∀ (l : List Student) (j : Nat) (s' : Student), UniqueIds l →
      j < l.length → (l.getD j ⟨[], [], []⟩).id = s'.id →
      UniqueIds (l.set j s') := by
  intro l
  induction l with
  | nil => intro j s' _ hj _; simp at hj
  | cons a t ih =>
    intro j s' hu hj hid
    rw [UniqueIds, List.pairwise_cons] at hu
    obtain ⟨ha, ht⟩ := hu
    cases j with
    | zero =>
      simp only [List.getD_cons_zero] at hid
      rw [List.set_cons_zero, UniqueIds, List.pairwise_cons]
      exact ⟨fun b hb => hid ▸ ha b hb, ht⟩
    | succ j =>
      simp only [List.getD_cons_succ] at hid
      simp only [List.length_cons, Nat.succ_lt_succ_iff] at hj
      rw [List.set_cons_succ, UniqueIds, List.pairwise_cons]
      constructor
      · intro b hb
        rcases List.mem_or_eq_of_mem_set hb with hb | hb
        · exact ha b hb
        · subst hb
          have hmem : t.getD j ⟨[], [], []⟩ ∈ t := by
            rw [List.getD_eq_getElem t _ hj]
            exact List.getElem_mem hj
          exact hid ▸ ha _ hmem
      · exact ih j s' ht hj hid

theorem uniqueIds_set_fresh :
    ∀ (l : List Student) (j : Nat) (s' : Student), UniqueIds l →
      (∀ a ∈ l, a.id ≠ s'.id) → UniqueIds (l.set j s') := by
  intro l
  induction l with
  | nil => intro j s' _ _; unfold UniqueIds; simp
  | cons a t ih =>
    intro j s' hu hf
    rw [UniqueIds, List.pairwise_cons] at hu
    obtain ⟨ha, ht⟩ := hu
    cases j with
    | zero =>
      rw [List.set_cons_zero, UniqueIds, List.pairwise_cons]
      constructor
      · intro b hb
        exact fun e => hf b (List.mem_cons_of_mem a hb) e.symm
      · exact ht
    | succ j =>
      rw [List.set_cons_succ, UniqueIds, List.pairwise_cons]
      constructor
      · intro b hb
        rcases List.mem_or_eq_of_mem_set hb with hb | hb
        · exact ha b hb
        · subst hb; exact hf a (List.mem_cons_self a t)
      · exact ih j s' ht fun b hb => hf b (List.mem_cons_of_mem a hb)

/-! ### Helper lemmas about the stable sort -/

theorem perm_insertLe (r : Student → Student → Bool) (x : Student) :
    ∀ l : List Student, (insertLe r x l).Perm (x :: l) := by
  intro l
  induction l with
  | nil => exact List.Perm.refl _
  | cons y ys ih =>
    by_cases h : r x y
    · rw [insertLe, if_pos h]
    · rw [insertLe, if_neg h]
      exact (ih.cons y).trans (List.Perm.swap x y ys)

theorem perm_insortBy (r : Student → Student → Bool) :
    ∀ l : List Student, (insortBy r l).Perm l := by
  intro l
  induction l with
  | nil => exact List.Perm.refl _
  | cons x xs ih =>
    exact (perm_insertLe r x (insortBy r xs)).trans (ih.cons x)

theorem pairwise_insertLe (r : Student → Student → Bool)
    (htot : ∀ a b, (r a b || r b a) = true)
    (htrans : ∀ a b c, r a b = true → r b c = true → r a c = true)
    (x : Student) :
    ∀ l : List Student, l.Pairwise (fun a b => r a b = true) →
      (insertLe r x l).Pairwise (fun a b => r a b = true) := by
  intro l
  induction l with
  | nil => intro _; simp [insertLe]
  | cons y ys ih =>
    intro hl
    rw [List.pairwise_cons] at hl
    obtain ⟨hy, hys⟩ := hl
    by_cases h : r x y
    · rw [insertLe, if_pos h, List.pairwise_cons]
      constructor
      · intro b hb
        rcases List.mem_cons.mp hb with hb | hb
        · subst hb; exact h
        · exact htrans x y b h (hy b hb)
      · exact List.pairwise_cons.mpr ⟨hy, hys⟩
    · rw [insertLe, if_neg h, List.pairwise_cons]
      have hyx : r y x = true := by
        have := htot x y
        rcases Bool.or_eq_true_iff.mp this with h' | h'
        · exact absurd h' h
        · exact h'
      constructor
      · intro b hb
        rcases List.mem_cons.mp ((perm_insertLe r x ys).mem_iff.mp hb) with
          hb | hb
        · subst hb; exact hyx
        · exact hy b hb
      · exact ih hys

theorem pairwise_insortBy (r : Student → Student → Bool)
    (htot : ∀ a b, (r a b || r b a) = true)
    (htrans : ∀ a b c, r a b = true → r b c = true → r a c = true) :
    ∀ l : List Student,
      (insortBy r l).Pairwise (fun a b => r a b = true) := by
  intro l
  induction l with
  | nil => simp [insortBy]
  | cons x xs ih => exact pairwise_insertLe r htot htrans x _ ih

theorem filter_insertLe_neg (r : Student → Student → Bool)
    (p : Student → Bool) (x : Student) (hp : p x = false) :
    ∀ l : List Student, (insertLe r x l).filter p = l.filter p := by
  intro l
  induction l with
  | nil => simp [insertLe, hp]
  | cons y ys ih =>
    by_cases h : r x y
    · simp [insertLe, h, List.filter_cons, hp]
    · rw [insertLe, if_neg h]
      simp [List.filter_cons, ih]

theorem filter_insertLe_pos (r : Student → Student → Bool)
    (p : Student → Bool) (x : Student) (hp : p x = true) :
    ∀ l : List Student, (∀ y ∈ l, p y = true → r x y = true) →
      (insertLe r x l).filter p = x :: l.filter p := by
  intro l
  induction l with
  | nil => intro _; simp [insertLe, hp]
  | cons y ys ih =>
    intro hr
    by_cases h : r x y
    · simp [insertLe, h, List.filter_cons, hp]
    · rw [insertLe, if_neg h]
      have hpy : p y = false := by
        cases hc : p y with
        | false => rfl
        | true => exact absurd (hr y (List.mem_cons_self y ys) hc) h
      have ihr : ∀ z ∈ ys, p z = true → r x z = true :=
        fun z hz => hr z (List.mem_cons_of_mem y hz)
      simp [List.filter_cons, hpy, ih ihr]

theorem filter_insortBy (r : Student → Student → Bool) (p : Student → Bool)
    (hties : ∀ a b, p a = true → p b = true → r a b = true) :
    ∀ l : List Student, (insortBy r l).filter p = l.filter p := by
  intro l
  induction l with
  | nil => rfl
  | cons x xs ih =>
    rw [insortBy]
    cases hp : p x with
    | true =>
      rw [filter_insertLe_pos r p x hp (insortBy r xs)
        (fun y _ hy => hties x y hp hy)]
      simp [List.filter_cons, hp, ih]
    | false =>
      rw [filter_insertLe_neg r p x hp (insortBy r xs)]
      simp [List.filter_cons, hp, ih]

/-! ### Helper lemmas about the lexicographic comparison -/

theorem lexLeB_refl : ∀ l : List Char, lexLeB l l = true := by
  intro l
  induction l with
  | nil => rfl
  | cons a as ih => simp [lexLeB, ih]

theorem lexLeB_total : ∀ x y : List Char, (lexLeB x y || lexLeB y x) = true := by
  intro x
  induction x with
  | nil => intro y; simp [lexLeB]
  | cons a as ih =>
    intro y
    cases y with
    | nil => simp [lexLeB]
    | cons b bs =>
      by_cases h : a = b
      · subst h
        simp only [lexLeB, if_pos rfl]
        exact ih bs
      · have h' : ¬ b = a := fun e => h e.symm
        simp only [lexLeB, if_neg h, if_neg h']
        rcases lt_or_gt_of_ne h with hlt | hlt
        · simp [hlt]
        · simp [hlt]

theorem lexLeB_trans : ∀ x y z : List Char,
    lexLeB x y = true → lexLeB y z = true → lexLeB x z = true := by
  intro x
  induction x with
  | nil => intro y z _ _; rfl
  | cons a as ih =>
    intro y z hxy hyz
    cases y with
    | nil => simp [lexLeB] at hxy
    | cons b bs =>
      cases z with
      | nil => simp [lexLeB] at hyz
      | cons c cs =>
        by_cases hab : a = b
        · subst hab
          rw [lexLeB, if_pos rfl] at hxy
          by_cases hac : a = c
          · subst hac
            rw [lexLeB, if_pos rfl] at hyz
            rw [lexLeB, if_pos rfl]
            exact ih bs cs hxy hyz
          · rw [lexLeB, if_neg hac] at hyz
            rw [lexLeB, if_neg hac]
            exact hyz
        · rw [lexLeB, if_neg hab] at hxy
          have hab' : a < b := of_decide_eq_true hxy
          by_cases hbc : b = c
          · subst hbc
            rw [lexLeB, if_neg hab]
            exact hxy
          · rw [lexLeB, if_neg hbc] at hyz
            have hbc' : b < c := of_decide_eq_true hyz
            have hac' : a < c := lt_trans hab' hbc'
            rw [lexLeB, if_neg (ne_of_lt hac')]
            exact decide_eq_true hac'

/-! ### Inversion lemmas for the setters -/

theorem set_name_ok {s s' : Student} {v : List Char}
    (h : s.set_name v = .ok s') : s' = { s with name := pyStrip v } := by
  rw [Student.set_name] at h
  by_cases hv : pyStrip v = []
  · rw [if_pos hv] at h; exact absurd h (by simp)
  · rw [if_neg hv] at h; injection h with h; exact h.symm

theorem set_id_ok {s s' : Student} {v : List Char}
    (h : s.set_id v = .ok s') : s' = { s with id := pyStrip v } := by
  rw [Student.set_id] at h
  by_cases hv : pyStrip v = []
  · rw [if_pos hv] at h; exact absurd h (by simp)
  · rw [if_neg hv] at h; injection h with h; exact h.symm

theorem set_major_ok {s s' : Student} {v : List Char}
    (h : s.set_major v = .ok s') : s' = { s with major := pyStrip v } := by
  rw [Student.set_major] at h
  by_cases hv : pyStrip v = []
  · rw [if_pos hv] at h; exact absurd h (by simp)
  · rw [if_neg hv] at h; injection h with h; exact h.symm

/-! ### Uniqueness preservation of each operation -/

theorem uniqueIds_add (st : StudentManager) (n i m : List Char)
    (hu : UniqueIds st.students) :
    UniqueIds (add_student st n i m).2.students := by
  rw [add_student]
  by_cases h1 : pyStrip n = [] ∨ pyStrip i = [] ∨ pyStrip m = []
  · rw [if_pos h1]; exact hu
  · rw [if_neg h1]
    by_cases h2 : (find_student_by_id st.students (pyStrip i)).isSome = true
    · rw [if_pos h2]; exact hu
    · rw [if_neg h2]
      have hnone : find_student_by_id st.students (pyStrip i) = none := by
        cases hfe : find_student_by_id st.students (pyStrip i) with
        | none => rfl
        | some s => rw [hfe] at h2; simp at h2
      have hf := (find_student_by_id_none _ _).mp hnone
      simp only [saveToFile]
      exact uniqueIds_append_fresh _ _ hu fun a ha => hf a ha

theorem uniqueIds_update (st : StudentManager) (o n i m : List Char)
    (hu : UniqueIds st.students) :
    UniqueIds (update_student st o n i m).2.students := by
  rw [update_student]
  cases hj : findIdxFrom (fun s => s.id == o) st.students with
  | none => exact hu
  | some j =>
    simp only []
    obtain ⟨hlen, hpred⟩ := findIdxFrom_some _ _ _ hj
    have hjid : (st.students.getD j ⟨[], [], []⟩).id = o := by
      simpa using hpred
    by_cases hg : pyStrip i ≠ o ∧
        (find_student_by_id st.students (pyStrip i)).isSome = true
    · rw [if_pos hg]; exact hu
    · rw [if_neg hg]
      cases hs1 : (st.students.getD j ⟨[], [], []⟩).set_name n with
      | error e => exact hu
      | ok s1 =>
        simp only []
        have hs1id : s1.id = o := by rw [set_name_ok hs1]; exact hjid
        cases hs2 : s1.set_id (pyStrip i) with
        | error e =>
          exact uniqueIds_set_same_id st.students j s1 hu hlen
            (by rw [hjid, hs1id])
        | ok s2 =>
          simp only []
          have hs2id : s2.id = pyStrip i := by
            rw [set_id_ok hs2]
            exact pyStrip_idem i
          have hset2 : UniqueIds (st.students.set j s2) := by
            rcases not_and_or.mp hg with hg1 | hg2
            · have hio : pyStrip i = o := not_not.mp hg1
              exact uniqueIds_set_same_id st.students j s2 hu hlen
                (by rw [hjid, hs2id, hio])
            · have hnone : find_student_by_id st.students (pyStrip i) = none := by
                cases hfe : find_student_by_id st.students (pyStrip i) with
                | none => rfl
                | some s => rw [hfe] at hg2; simp at hg2
              have hf := (find_student_by_id_none _ _).mp hnone
              exact uniqueIds_set_fresh st.students j s2 hu
                fun a ha => hs2id ▸ hf a ha
          cases hs3 : s2.set_major m with
          | error e => exact hset2
          | ok s3 =>
            simp only []
            have hs3id : s3.id = s2.id := by rw [set_major_ok hs3]
            simp only [saveToFile]
            rcases not_and_or.mp hg with hg1 | hg2
            · have hio : pyStrip i = o := not_not.mp hg1
              exact uniqueIds_set_same_id st.students j s3 hu hlen
                (by rw [hjid, hs3id, hs2id, hio])
            · have hnone : find_student_by_id st.students (pyStrip i) = none := by
                cases hfe : find_student_by_id st.students (pyStrip i) with
                | none => rfl
                | some s => rw [hfe] at hg2; simp at hg2
              have hf := (find_student_by_id_none _ _).mp hnone
              exact uniqueIds_set_fresh st.students j s3 hu
                fun a ha => hs3id ▸ hs2id ▸ hf a ha

theorem uniqueIds_delete (st : StudentManager) (sid : List Char)
    (hu : UniqueIds st.students) :
    UniqueIds (delete_student st sid).2.students := by
  rw [delete_student]
  cases hj : findIdxFrom (fun s => s.id == sid) st.students with
  | none => exact hu
  | some j =>
    simp only [saveToFile]
    exact List.Pairwise.sublist (List.eraseIdx_sublist _ _) hu

theorem uniqueIds_sort (st : StudentManager) (field : String)
    (ascending : Bool) (hu : UniqueIds st.students) :
    UniqueIds (sort_students st field ascending).students := by
  have hsymm : ∀ {a b : Student}, a.id ≠ b.id → b.id ≠ a.id :=
    fun h e => h e.symm
  cases ascending with
  | false =>
    rw [sort_students, if_neg Bool.false_ne_true]
    simp only [saveToFile]
    exact ((perm_insortBy _ st.students).pairwise_iff
      fun h => hsymm h).mpr hu
  | true =>
    rw [sort_students, if_pos rfl]
    simp only [saveToFile]
    exact ((perm_insortBy _ st.students).pairwise_iff
      fun h => hsymm h).mpr hu

theorem uniqueIds_step {st st' : StudentManager} (h : Step st st')
    (hu : UniqueIds st.students) : UniqueIds st'.students := by
  cases h with
  | add n i m => exact uniqueIds_add st n i m hu
  | update o n i m => exact uniqueIds_update st o n i m hu
  | delete sid => exact uniqueIds_delete st sid hu
  | sort field ascending => exact uniqueIds_sort st field ascending hu

/-- `getD` through `map` at an in-range index. -/
theorem getD_map_students :
    ∀ (l : List Nat) (j : Nat) (f : Nat → Student), j < l.length →
      (l.map f).getD j ⟨[], [], []⟩ = f (l.getD j 0) := by
  intro l
  induction l with
  | nil => intro j f h; simp at h
  | cons x xs ih =>
    intro j f h
    cases j with
    | zero => simp
    | succ j =>
      simp only [List.length_cons, Nat.succ_lt_succ_iff] at h
      simp only [List.map_cons, List.getD_cons_succ]
      exact ih j f h

/-- `getD` of `set` at the written index. -/
theorem getD_set_self_students :
    ∀ (l : List Student) (r : Nat) (a : Student), r < l.length →
      (l.set r a).getD r ⟨[], [], []⟩ = a := by
  intro l
  induction l with
  | nil => intro r a h; simp at h
  | cons x xs ih =>
    intro r a h
    cases r with
    | zero => simp
    | succ r =>
      simp only [List.length_cons, Nat.succ_lt_succ_iff] at h
      simp only [List.set_cons_succ, List.getD_cons_succ]
      exact ih r a h

/-! ### Claims -/

/-- C2 counterexample: the constructor does not validate.  Constructing a
`Student` with all three fields empty (hence empty after trimming) succeeds
and returns the record — it does not fail with a `ValidationError`, contrary
to the claim that construction fails whenever a trimmed field is empty and
succeeds only when all three trimmed fields are non-empty. -/
theorem studentInit_empty_fields_succeeds :
    studentInit [] [] [] = .ok ⟨[], [], []⟩ :=
  rfl

/-- C2 (amended): constructing a `Record` never fails and stores the three
field values exactly as given, with no trimming or validation; the
trimmed-non-empty validation lives in the setters — each of `set_name`,
`set_id`, `set_major` fails with `ValidationError` exactly when the trimmed
new value is empty, and otherwise stores the trimmed value — and in `add`'s
pre-checks, which reject any input with an empty trimmed field. -/
theorem studentInit_no_validation (n i m v : List Char) (s : Student)
    (st : StudentManager) :
    studentInit n i m = .ok ⟨n, i, m⟩ ∧
    (pyStrip v = [] →
      s.set_name v = .error ⟨"Name cannot be empty."⟩ ∧
      s.set_id v = .error ⟨"ID cannot be empty."⟩ ∧
      s.set_major v = .error ⟨"Major cannot be empty."⟩) ∧
    (pyStrip v ≠ [] →
      s.set_name v = .ok { s with name := pyStrip v } ∧
      s.set_id v = .ok { s with id := pyStrip v } ∧
      s.set_major v = .ok { s with major := pyStrip v }) ∧
    (pyStrip n = [] → add_student st n i m = (false, st)) := by
  refine ⟨rfl, ?_, ?_, ?_⟩
  · intro h
    exact ⟨by rw [Student.set_name, if_pos h],
      by rw [Student.set_id, if_pos h],
      by rw [Student.set_major, if_pos h]⟩
  · intro h
    exact ⟨by rw [Student.set_name, if_neg h],
      by rw [Student.set_id, if_neg h],
      by rw [Student.set_major, if_neg h]⟩
  · intro h
    rw [add_student, if_pos (Or.inl h)]

/-- Witness for C2's amended theorem at concrete inputs: construction with
the given fields succeeds unchanged, and `set_name` of a blank string fails. -/
theorem studentInit_no_validation_witness :
    studentInit "A".toList "S1".toList "CS".toList =
      .ok (Student.mk "A".toList "S1".toList "CS".toList) ∧
    Student.set_name (Student.mk "A".toList "S1".toList "CS".toList)
      " ".toList = .error ⟨"Name cannot be empty."⟩ :=
  ⟨(studentInit_no_validation "A".toList "S1".toList "CS".toList " ".toList
      (Student.mk "A".toList "S1".toList "CS".toList) ⟨[], []⟩).1,
   ((studentInit_no_validation "A".toList "S1".toList "CS".toList " ".toList
      (Student.mk "A".toList "S1".toList "CS".toList) ⟨[], []⟩).2.1
        (by decide)).1⟩

/-- C3: for any store and inputs whose three trimmed fields are non-empty and
whose trimmed id is not already present, `add_student` returns `true`,
appends exactly the record of trimmed field values (so it is in a subsequent
`get_all_students`), and persists the full store to the file. -/
theorem add_student_valid (st : StudentManager)
    (name student_id major : List Char)
    (hn : pyStrip name ≠ []) (hi : pyStrip student_id ≠ [])
    (hm : pyStrip major ≠ [])
    (hfresh : find_student_by_id st.students (pyStrip student_id) = none) :
    add_student st name student_id major =
      (true, StudentManager.mk
        (st.students ++ [Student.mk (pyStrip name) (pyStrip student_id) (pyStrip major)])
        ((st.students ++
          [Student.mk (pyStrip name) (pyStrip student_id) (pyStrip major)]).map
            Student.to_dict)) ∧
    Student.mk (pyStrip name) (pyStrip student_id) (pyStrip major) ∈
      get_all_students (add_student st name student_id major).2 := by
  have h1 : ¬(pyStrip name = [] ∨ pyStrip student_id = [] ∨
      pyStrip major = []) := by
    push_neg
    exact ⟨hn, hi, hm⟩
  have hmain : add_student st name student_id major =
      (true, StudentManager.mk
        (st.students ++ [Student.mk (pyStrip name) (pyStrip student_id) (pyStrip major)])
        ((st.students ++
          [Student.mk (pyStrip name) (pyStrip student_id) (pyStrip major)]).map
            Student.to_dict)) := by
    rw [add_student, if_neg h1, hfresh]
    simp [saveToFile]
  refine ⟨hmain, ?_⟩
  rw [hmain]
  simp [get_all_students]

/-- Witness for C3 on a store already holding one record. -/
theorem add_student_valid_witness :
    add_student (StudentManager.mk [Student.mk "Bob".toList "S2".toList "EE".toList]
        [StudentDict.mk "Bob".toList "S2".toList "EE".toList])
      " Ann ".toList "S1".toList "CS".toList =
      (true, StudentManager.mk
        ([Student.mk "Bob".toList "S2".toList "EE".toList] ++
          [Student.mk (pyStrip " Ann ".toList) (pyStrip "S1".toList) (pyStrip "CS".toList)])
        (([Student.mk "Bob".toList "S2".toList "EE".toList] ++
          [Student.mk (pyStrip " Ann ".toList) (pyStrip "S1".toList) (pyStrip "CS".toList)]).map Student.to_dict)) ∧
    Student.mk (pyStrip " Ann ".toList) (pyStrip "S1".toList) (pyStrip "CS".toList) ∈
      get_all_students (add_student
        (StudentManager.mk [Student.mk "Bob".toList "S2".toList "EE".toList]
          [StudentDict.mk "Bob".toList "S2".toList "EE".toList])
        " Ann ".toList "S1".toList "CS".toList).2 :=
  add_student_valid _ _ _ _ (by decide) (by decide) (by decide) (by decide)

/-- C4: `add_student` with a trimmed id already held by some record in the
store returns `false` and returns the store exactly as it was — same records,
same file, no persistence side effect. -/
theorem add_student_duplicate (st : StudentManager)
    (name student_id major : List Char)
    (hdup : ∃ s ∈ st.students, s.id = pyStrip student_id) :
    add_student st name student_id major = (false, st) := by
  by_cases h1 : pyStrip name = [] ∨ pyStrip student_id = [] ∨
      pyStrip major = []
  · rw [add_student, if_pos h1]
  · rw [add_student, if_neg h1,
      if_pos ((find_student_by_id_isSome _ _).mpr hdup)]

/-- Witness for C4: adding a second record with the already-present id
`"S1"` fails and leaves the store untouched. -/
theorem add_student_duplicate_witness :
    add_student (StudentManager.mk [Student.mk "Ann".toList "S1".toList "CS".toList]
        [StudentDict.mk "Ann".toList "S1".toList "CS".toList])
      "Bob".toList " S1 ".toList "EE".toList =
      (false, StudentManager.mk [Student.mk "Ann".toList "S1".toList "CS".toList]
        [StudentDict.mk "Ann".toList "S1".toList "CS".toList]) :=
  add_student_duplicate _ _ _ _
    ⟨Student.mk "Ann".toList "S1".toList "CS".toList, by decide, by decide⟩

/-- C8: serialization round-trips.  `from_dict` of `to_dict` reproduces any
record field-for-field, and loading the file written by a save reproduces the
store's records field-for-field. -/
theorem serialization_roundtrip :
    (∀ s : Student, Student.from_dict (Student.to_dict s) = s) ∧
    (∀ st : StudentManager,
      (managerInit (saveToFile st).file).students = st.students) := by
  constructor
  · intro s
    cases s
    rfl
  · intro st
    rw [managerInit, saveToFile]
    simp only [List.map_map]
    have hid : Student.from_dict ∘ Student.to_dict = id := by
      funext s
      cases s
      rfl
    rw [hid, List.map_id]

/-- C10: `search_students` trims its query before matching — searching with
any query returns exactly the same result as searching with the query
stripped of surrounding whitespace. -/
theorem search_students_trims (st : StudentManager) (query : List Char) :
    search_students st query = search_students st (pyStrip query) := by
  simp only [search_students, pyStrip_idem]

/-- C5: in `update_student` the setters run in source order (name, id,
major), and a later setter's validation failure returns `false` while the
earlier setters' effects are already committed to the stored record: when the
trimmed new id is empty the record keeps its id and major but already carries
the trimmed new name; when only the trimmed new major is empty the record
already carries both the trimmed new name and the trimmed new id.  In both
cases the file is not rewritten. -/
theorem update_partial_mutation (st : StudentManager)
    (origId n i m : List Char) (j : Nat)
    (hj : findIdxFrom (fun s => s.id == origId) st.students = some j)
    (hguard : pyStrip i = origId ∨
      find_student_by_id st.students (pyStrip i) = none)
    (hn : pyStrip n ≠ []) :
    (pyStrip i = [] →
      update_student st origId n i m =
        (false, { st with
          students := st.students.set j
            ({ st.students.getD j ⟨[], [], []⟩ with name := pyStrip n }) })) ∧
    (pyStrip i ≠ [] → pyStrip m = [] →
      update_student st origId n i m =
        (false, { st with
          students := st.students.set j
            ({ st.students.getD j ⟨[], [], []⟩ with
                name := pyStrip n, id := pyStrip i }) })) := by
  have hg : ¬(pyStrip i ≠ origId ∧
      (find_student_by_id st.students (pyStrip i)).isSome = true) := by
    rcases hguard with h | h
    · exact fun hc => hc.1 h
    · intro hc
      rw [h] at hc
      simp at hc
  constructor
  · intro hi
    rw [update_student, hj]
    simp only []
    rw [if_neg hg, Student.set_name, if_neg hn]
    simp only []
    rw [Student.set_id, pyStrip_idem, if_pos hi]
  · intro hi hm
    rw [update_student, hj]
    simp only []
    rw [if_neg hg, Student.set_name, if_neg hn]
    simp only []
    rw [Student.set_id, pyStrip_idem, if_neg hi]
    simp only []
    rw [Student.set_major, if_pos hm]

/-- Witness for C5: updating `"S1"` with a valid name, the same id and a
blank major fails, yet the stored record's name is already changed. -/
theorem update_partial_mutation_witness :
    update_student
      (StudentManager.mk [Student.mk "Ann".toList "S1".toList "CS".toList]
        [StudentDict.mk "Ann".toList "S1".toList "CS".toList])
      "S1".toList " Bob ".toList "S1".toList "   ".toList =
      (false,
        { (StudentManager.mk [Student.mk "Ann".toList "S1".toList "CS".toList]
            [StudentDict.mk "Ann".toList "S1".toList "CS".toList]) with
          students :=
            [Student.mk "Ann".toList "S1".toList "CS".toList].set 0
              ({ [Student.mk "Ann".toList "S1".toList "CS".toList].getD 0
                    ⟨[], [], []⟩ with
                  name := pyStrip " Bob ".toList,
                  id := pyStrip "S1".toList }) }) :=
  (update_partial_mutation
    (StudentManager.mk [Student.mk "Ann".toList "S1".toList "CS".toList]
      [StudentDict.mk "Ann".toList "S1".toList "CS".toList])
    "S1".toList " Bob ".toList "S1".toList "   ".toList 0 (by decide)
    (Or.inl (by decide)) (by decide)).2 (by decide) (by decide)

/-- C6 counterexample: with the single record (name "Alice Tan", id "S001")
in the store, the query `" ali "` — non-blank, with surrounding whitespace —
is matched by the code after trimming, so `search_students` returns the
record, while the claim's matching rule (the record contains the query
itself, untrimmed, as a case-insensitive substring) selects nothing. -/
theorem search_untrimmed_query_counterexample :
    search_students (StudentManager.mk
        [Student.mk "Alice Tan".toList "S001".toList "CS".toList] [])
      " ali ".toList ≠
    searchClaimed (StudentManager.mk
        [Student.mk "Alice Tan".toList "S001".toList "CS".toList] [])
      " ali ".toList := by
  decide

/-- C6 (amended): `search_students` returns exactly the records whose name
or id contains the trimmed query as a case-insensitive substring, in store
order, and returns the same sequence as `get_all_students` for an empty or
whitespace-only query — as stated by `searchTrimmedSpec`. -/
theorem search_students_matches_trimmed (st : StudentManager)
    (query : List Char) :
    search_students st query = searchTrimmedSpec st query := by
  rw [search_students, searchTrimmedSpec]
  by_cases h : pyStrip query = []
  · rw [if_pos ((pyLower_eq_nil _).mpr h), if_pos h]
  · rw [if_neg (fun hc => h ((pyLower_eq_nil _).mp hc)), if_neg h]

/-- C7: `sort_students` replaces the in-memory sequence by a permutation of
it that is sorted by the lowered chosen field (ascending when
`ascending = true`, descending otherwise), is stable (filtering by any key
value returns the same subsequence as before the sort), persists the new
order to the file, and treats every `field` other than `"id"` — in
particular every key other than `"name"`/`"id"` — exactly like `"name"`. -/
theorem sort_students_spec (st : StudentManager) (field : String)
    (ascending : Bool) :
    (sort_students st field ascending).students.Perm st.students ∧
    (ascending = true →
      (sort_students st field ascending).students.Pairwise
        (fun a b => sortLe field a b = true)) ∧
    (ascending = false →
      (sort_students st field ascending).students.Pairwise
        (fun a b => sortLe field b a = true)) ∧
    (∀ k : List Char,
      (sort_students st field ascending).students.filter
          (fun s => keyOf field s == k) =
        st.students.filter (fun s => keyOf field s == k)) ∧
    (sort_students st field ascending).file =
      (sort_students st field ascending).students.map Student.to_dict ∧
    (field ≠ "id" →
      sort_students st field ascending = sort_students st "name" ascending) := by
  have hname : field ≠ "id" →
      sort_students st field ascending = sort_students st "name" ascending := by
    intro hf
    have hkey : keyOf field = keyOf "name" := by
      funext s
      rw [keyOf, if_neg hf, keyOf, if_neg (by decide)]
    have hle : sortLe field = sortLe "name" := by
      funext a b
      rw [sortLe, sortLe, hkey]
    rw [sort_students, sort_students, hle]
  have hties : ∀ (k : List Char) (a b : Student),
      (keyOf field a == k) = true → (keyOf field b == k) = true →
        sortLe field a b = true := by
    intro k a b ha hb
    rw [sortLe, eq_of_beq ha, eq_of_beq hb]
    exact lexLeB_refl k
  refine ⟨?_, ?_, ?_, ?_, ?_, hname⟩
  · cases ascending with
    | true =>
      rw [sort_students, if_pos rfl]
      exact perm_insortBy (sortLe field) st.students
    | false =>
      rw [sort_students, if_neg Bool.false_ne_true]
      exact perm_insortBy (fun a b => sortLe field b a) st.students
  · intro ha
    subst ha
    rw [sort_students, if_pos rfl]
    exact pairwise_insortBy (sortLe field)
      (fun a b => lexLeB_total (keyOf field a) (keyOf field b))
      (fun a b c => lexLeB_trans (keyOf field a) (keyOf field b)
        (keyOf field c))
      st.students
  · intro ha
    subst ha
    rw [sort_students, if_neg Bool.false_ne_true]
    exact pairwise_insortBy (fun a b => sortLe field b a)
      (fun a b => lexLeB_total (keyOf field b) (keyOf field a))
      (fun a b c hab hbc => lexLeB_trans (keyOf field c) (keyOf field b)
        (keyOf field a) hbc hab)
      st.students
  · intro k
    cases ascending with
    | true =>
      rw [sort_students, if_pos rfl]
      exact filter_insortBy (sortLe field) (fun s => keyOf field s == k)
        (hties k) st.students
    | false =>
      rw [sort_students, if_neg Bool.false_ne_true]
      exact filter_insortBy (fun a b => sortLe field b a)
        (fun s => keyOf field s == k)
        (fun a b ha hb => hties k b a hb ha) st.students
  · cases ascending with
    | true =>
      rw [sort_students, if_pos rfl]
      rfl
    | false =>
      rw [sort_students, if_neg Bool.false_ne_true]
      rfl

/-- Witness for C7: ascending id-sort of ids S002, S001 is sorted by the
lowered id, and sorting by the unrecognized key "major" equals sorting by
"name". -/
theorem sort_students_spec_witness :
    (sort_students (StudentManager.mk
        [Student.mk "B".toList "S002".toList "M".toList,
         Student.mk "A".toList "S001".toList "C".toList] [])
      "id" true).students.Pairwise (fun a b => sortLe "id" a b = true) ∧
    sort_students (StudentManager.mk
        [Student.mk "B".toList "S002".toList "M".toList,
         Student.mk "A".toList "S001".toList "C".toList] [])
      "major" true = sort_students (StudentManager.mk
        [Student.mk "B".toList "S002".toList "M".toList,
         Student.mk "A".toList "S001".toList "C".toList] [])
      "name" true :=
  ⟨(sort_students_spec _ "id" true).2.1 rfl,
   (sort_students_spec _ "major" true).2.2.2.2.2 (by decide)⟩

/-- C1 counterexample: the state produced at construction by loading a
backing file whose two entries both carry the id "S001" holds two distinct
records with the same id — `load_from_file` performs no uniqueness check, so
this reachable (initial) state violates the claimed invariant. -/
theorem load_duplicate_ids_counterexample :
    ¬ UniqueIds (managerInit
      [StudentDict.mk "Alice".toList "S001".toList "CS".toList,
       StudentDict.mk "Bob".toList "S001".toList "Math".toList]).students := by
  decide

/-- C1 (amended): id-uniqueness is an invariant of the manager's operations:
from any state whose records have pairwise-distinct ids (in particular a
store loaded from a duplicate-free file, or an empty store), every state
reachable through `add_student`, `update_student`, `delete_student` and
`sort_students` again has pairwise-distinct ids; the uniqueness check is
enforced before any insert or id-changing update commits, but loading itself
does not enforce it. -/
theorem uniqueIds_preserved_reachable (st st' : StudentManager)
    (hu : UniqueIds st.students) (hr : Reachable st st') :
    UniqueIds st'.students := by
  induction hr with
  | refl => exact hu
  | tail _ hstep ih => exact uniqueIds_step hstep ih

/-- Witness for C1's amended theorem: one `add_student` step from the empty
store yields a state with unique ids. -/
theorem uniqueIds_preserved_reachable_witness :
    UniqueIds ((add_student (StudentManager.mk [] [])
      "Ann".toList "S1".toList "CS".toList).2).students :=
  uniqueIds_preserved_reachable _ _ (by decide)
    (Relation.ReflTransGen.single (Step.add _ _ _ _))

/-- C9 counterexample: `get_all_students` returns a shallow copy — in the
heap model, calling `set_name` on the record behind the first reference of
the returned list changes the sequence of records the store holds, so
mutating an element of the returned sequence does affect the store. -/
theorem get_all_aliasing_counterexample :
    hs_records (hs_set_name
        (HeapState.mk [Student.mk "Alice".toList "S001".toList "CS".toList]
          [0])
        ((hs_get_all (HeapState.mk
            [Student.mk "Alice".toList "S001".toList "CS".toList] [0])).getD
          0 0)
        "Bob".toList) ≠
      hs_records (HeapState.mk
        [Student.mk "Alice".toList "S001".toList "CS".toList] [0]) := by
  decide

/-- C9 (amended): `get_all_students` copies only the container: the returned
list is a fresh list value holding the store's own record references, and a
caller's `set_name` through such a reference leaves the store's reference
list untouched while changing the record the store resolves at that
position — the records are shared, not copied. -/
theorem get_all_shallow_copy (st : HeapState) (r : Nat) (v : List Char)
    (j : Nat) (hj : j < st.refs.length) (hr : st.refs.getD j 0 = r)
    (hrh : r < st.heap.length) :
    hs_get_all st = st.refs ∧
    (hs_set_name st r v).refs = st.refs ∧
    (hs_records (hs_set_name st r v)).getD j ⟨[], [], []⟩ =
      { st.heap.getD r ⟨[], [], []⟩ with name := pyStrip v } := by
  refine ⟨rfl, rfl, ?_⟩
  have h1 : (hs_records (hs_set_name st r v)).getD j ⟨[], [], []⟩ =
      (hs_set_name st r v).heap.getD (st.refs.getD j 0) ⟨[], [], []⟩ :=
    getD_map_students st.refs j _ hj
  rw [h1, hr, hs_set_name]
  exact getD_set_self_students st.heap r _ hrh

/-- Witness for C9's amended theorem at a concrete one-record heap. -/
theorem get_all_shallow_copy_witness :
    hs_get_all (HeapState.mk
      [Student.mk "Alice".toList "S001".toList "CS".toList] [0]) = [0] ∧
    (hs_set_name (HeapState.mk
      [Student.mk "Alice".toList "S001".toList "CS".toList] [0])
        0 "Bob".toList).refs = [0] ∧
    (hs_records (hs_set_name (HeapState.mk
        [Student.mk "Alice".toList "S001".toList "CS".toList] [0])
      0 "Bob".toList)).getD 0 ⟨[], [], []⟩ =
      { ([Student.mk "Alice".toList "S001".toList "CS".toList]).getD 0
          ⟨[], [], []⟩ with name := pyStrip "Bob".toList } :=
  get_all_shallow_copy
    (HeapState.mk [Student.mk "Alice".toList "S001".toList "CS".toList] [0])
    0 "Bob".toList 0 (by decide) (by decide) (by decide)

end StudentMgmt
